import Mathlib

/-!
Clox `reallocate` (src/Clox/memory.c)

A shallow embedding of the single function of `memory.c`:

```c
void* reallocate(void* pointer, const size_t oldSize, const size_t newSize) {
    if (newSize == 0) {
        free(pointer);
        return NULL;
    }
    void* result = realloc(pointer, newSize);
    if (result == NULL) exit(1);
    return result;
}
```

`reallocate` is translated line by line.  The C library calls it makes
(`free`, `realloc`, `exit`) act on the process heap, which is made explicit as
a `Pool` value that is passed in and handed back.  The pool follows the ISO C
contract of `<stdlib.h>`; everything the contract leaves to the allocator
(whether a request is granted, which address is handed out, what the bytes
beyond the preserved prefix are) is read from a list of `Answer`s carried by
the pool, so that the theorems quantify over every allocator behaviour.
Sizes are `Nat`: `reallocate` performs no arithmetic on its `size_t`
arguments, it only compares `newSize` with zero.
-/

set_option linter.unusedVariables false

namespace Clox

/-- An address.  `0` is the null pointer. -/
abbrev Ptr := Nat

/-- The null pointer, `NULL` of `<stdlib.h>`: the "no block" sentinel. -/
abbrev NULL : Ptr := 0

/-- One byte of block content. -/
abbrev Byte := Fin 256

/-- What the allocator replies to one request for memory: it refuses, or it
offers an address together with the bytes that the fresh part of the block
happens to hold (the part the C standard calls indeterminate). -/
inductive Answer where
  | refuse
  | grant (addr : Ptr) (fill : List Byte)
deriving DecidableEq

/-- The state of the underlying memory pool: the live blocks (address and
content, the size of a block being the length of its content) and the replies
the allocator is going to give to the coming requests.  Once the replies are
used up every further request is refused. -/
structure Pool where
  live : List (Ptr × List Byte)
  answers : List Answer
deriving DecidableEq

/-- The content stored at address `p` in a list of blocks, if any. -/
def lookup : List (Ptr × List Byte) → Ptr → Option (List Byte)
  | [], _ => none
  | (a, c) :: rest, p => if a = p then some c else lookup rest p

/-- The blocks without the one at address `p`. -/
def remove (blocks : List (Ptr × List Byte)) (p : Ptr) : List (Ptr × List Byte) :=
  blocks.filter (fun b => b.1 ≠ p)

/-- The live block that pointer `p` names: its content, or `none` when `p`
names no live block.  The null pointer never names a block. -/
def Pool.block? (pool : Pool) (p : Ptr) : Option (List Byte) :=
  if p = NULL then none else lookup pool.live p

/-- A pointer that may be passed to `free` and `realloc`: the null pointer or
the address of a live block. -/
def Pool.valid (pool : Pool) (p : Ptr) : Prop :=
  p = NULL ∨ (pool.block? p).isSome = true

instance (pool : Pool) (p : Ptr) : Decidable (pool.valid p) := by
  unfold Pool.valid; exact inferInstance

/-- The content of a block of `size` bytes obtained from a block with content
`old`: the bytes of `old` up to the lesser of the two sizes, followed by the
bytes the allocator found in the fresh part (`fill`, padded with zeros). -/
def resized (old : List Byte) (size : Nat) (fill : List Byte) : List Byte :=
  old.take size ++ (fill ++ List.replicate size 0).take (size - old.length)

/-- The call `malloc(size)` of the C library: a null pointer when the
allocator refuses; otherwise a non-null address that names no live block,
which becomes a live block of exactly `size` bytes.  An offer of the allocator
that is null or names a live block cannot be honoured and counts as a
refusal. -/
def malloc (pool : Pool) (size : Nat) : Ptr × Pool :=
  match pool.answers with
  | [] => (NULL, pool)
  | .refuse :: rest => (NULL, { pool with answers := rest })
  | .grant addr fill :: rest =>
    if addr ≠ NULL ∧ lookup pool.live addr = none then
      (addr, { live := (addr, resized [] size fill) :: pool.live, answers := rest })
    else
      (NULL, { pool with answers := rest })

/-- The call `free(ptr)` of the C library.  `free(NULL)` does nothing; freeing
a live block releases it; anything else is undefined behaviour (`none`). -/
def free (pool : Pool) (ptr : Ptr) : Option Pool :=
  if ptr = NULL then some pool
  else
    match lookup pool.live ptr with
    | none => none
    | some _ => some { pool with live := remove pool.live ptr }

/-- The call `realloc(ptr, size)` of the C library (ISO C 7.22.3.5; section 4.1 of
the specification describes the underlying pool in the same way).
With a null `ptr` it behaves like `malloc(size)`.  With the address of a live
block it either returns a null pointer and leaves the block as it is, or
releases the block and returns the address of a block of `size` bytes (the
same address or one that named no live block) whose content agrees with the
old one up to the lesser of the old and new sizes.  With any other pointer the
behaviour is undefined (`none`). -/
def realloc (pool : Pool) (ptr : Ptr) (size : Nat) : Option (Ptr × Pool) :=
  if ptr = NULL then some (malloc pool size)
  else
    match lookup pool.live ptr with
    | none => none
    | some old =>
      match pool.answers with
      | [] => some (NULL, pool)
      | .refuse :: rest => some (NULL, { pool with answers := rest })
      | .grant addr fill :: rest =>
        if addr ≠ NULL ∧ (addr = ptr ∨ lookup pool.live addr = none) then
          some (addr, { live := (addr, resized old size fill) :: remove pool.live ptr,
                        answers := rest })
        else
          some (NULL, { pool with answers := rest })

/-- How a call of `reallocate` ends: it returns a pointer to its caller, or
the process is terminated by `exit(status)`, or the call has no defined
behaviour because a library function was handed a pointer it does not
accept.  The first two carry the pool as it is at that point. -/
inductive Outcome where
  | returned (result : Ptr) (pool : Pool)
  | exited (status : Nat) (pool : Pool)
  | undefined
deriving DecidableEq

/-- The function `reallocate` of `memory.c`. -/
def reallocate (pool : Pool) (pointer : Ptr) (oldSize newSize : Nat) : Outcome :=
  if newSize = 0 then
    match free pool pointer with
    | none => .undefined
    | some pool' => .returned NULL pool'
  else
    match realloc pool pointer newSize with
    | none => .undefined
    | some (result, pool') =>
      if result = NULL then .exited 1 pool' else .returned result pool'

/-- A pool that refuses every allocation request: whatever is asked of
`realloc`, the pointer it gives back is null. -/
def Pool.refusesAll (pool : Pool) : Prop :=
  ∀ (ptr : Ptr) (size : Nat) (res : Ptr × Pool), realloc pool ptr size = some res → res.1 = NULL

/-- The pool satisfies the request `realloc(ptr, size)`: the call gives back
a pointer that is not null. -/
def Pool.satisfies (pool : Pool) (ptr : Ptr) (size : Nat) : Prop :=
  ∃ (res : Ptr × Pool), realloc pool ptr size = some res ∧ res.1 ≠ NULL

/-- The caller overwrites the content of the live block at `p` with `c`, a
content of the same size (a write through the pointer, such as `memcpy`). -/
def Pool.store (pool : Pool) (p : Ptr) (c : List Byte) : Pool :=
  { pool with
    live := pool.live.map
      (fun b => (b.1, if b.1 = p ∧ b.2.length = c.length then c else b.2)) }

/-! Facts about the pool. -/

theorem lookup_remove_self (blocks : List (Ptr × List Byte)) (p : Ptr) :
    lookup (remove blocks p) p = none := by
  induction blocks with
  | nil => rfl
  | cons b rest ih =>
    obtain ⟨a, c⟩ := b
    by_cases h : a = p
    · simpa [remove, h] using ih
    · simpa [remove, h, lookup] using ih

theorem remove_of_lookup_none (blocks : List (Ptr × List Byte)) (p : Ptr)
    (h : lookup blocks p = none) : remove blocks p = blocks := by
  induction blocks with
  | nil => rfl
  | cons b rest ih =>
    obtain ⟨a, c⟩ := b
    by_cases hap : a = p
    · simp [lookup, hap] at h
    · simp only [lookup, hap, if_false] at h
      have ih' := ih h
      unfold remove at ih' ⊢
      rw [List.filter_cons_of_pos (by simpa using hap), ih']

theorem length_resized (old : List Byte) (size : Nat) (fill : List Byte) :
    (resized old size fill).length = size := by
  simp only [resized, List.length_append, List.length_take, List.length_replicate]
  omega

theorem take_resized (old : List Byte) (size : Nat) (fill : List Byte) (k : Nat)
    (hk : k ≤ size) (hk' : k ≤ old.length) :
    (resized old size fill).take k = old.take k := by
  unfold resized
  rw [List.take_append_of_le_length (by simp; omega)]
  rw [List.take_take]
  congr 1
  omega

theorem block?_eq_lookup (pool : Pool) (p : Ptr) (h : p ≠ NULL) :
    pool.block? p = lookup pool.live p := by
  simp [Pool.block?, h]

theorem lookup_of_block? {pool : Pool} {p : Ptr} {c : List Byte}
    (h : pool.block? p = some c) : p ≠ NULL ∧ lookup pool.live p = some c := by
  unfold Pool.block? at h
  by_cases hp : p = NULL
  · simp [hp] at h
  · simpa [hp] using h

/-- A null result of `realloc` leaves every live block as it was. -/
theorem realloc_null_live {pool pool' : Pool} {ptr : Ptr} {size : Nat}
    (h : realloc pool ptr size = some (NULL, pool')) : pool'.live = pool.live := by
  unfold realloc at h
  split at h
  · simp only [Option.some.injEq] at h
    unfold malloc at h
    split at h
    · cases h; rfl
    · cases h; rfl
    · split at h
      · rename_i hc
        have h1 := (Prod.mk.inj h).1
        exact absurd h1 hc.1
      · cases h; rfl
  · split at h
    · cases h
    · split at h
      · cases h; rfl
      · cases h; rfl
      · split at h
        · rename_i hc
          have h1 := (Prod.mk.inj (Option.some.inj h)).1
          exact absurd h1 hc.1
        · cases h; rfl

/-- A non-null result of `realloc(NULL, size)` is an address that named no
live block, and it is added as a block of `size` bytes. -/
theorem realloc_null_ptr_grant {pool pool' : Pool} {size : Nat} {a : Ptr}
    (h : realloc pool NULL size = some (a, pool')) (ha : a ≠ NULL) :
    lookup pool.live a = none ∧
      ∃ fill, pool'.live = (a, resized [] size fill) :: pool.live := by
  unfold realloc at h
  simp only [if_true, Option.some.injEq] at h
  unfold malloc at h
  split at h
  · exact absurd (Prod.mk.inj h).1.symm ha
  · exact absurd (Prod.mk.inj h).1.symm ha
  · rename_i addr fill rest _
    split at h
    · rename_i hc
      obtain ⟨h1, h2⟩ := Prod.mk.inj h
      subst h1
      subst h2
      exact ⟨hc.2, fill, rfl⟩
    · exact absurd (Prod.mk.inj h).1.symm ha

/-- A non-null result of `realloc` on a live block: the old block is released
and the result is a block of `size` bytes built from the old content. -/
theorem realloc_live_grant {pool pool' : Pool} {ptr : Ptr} {size : Nat} {a : Ptr}
    {old : List Byte} (hold : pool.block? ptr = some old)
    (h : realloc pool ptr size = some (a, pool')) (ha : a ≠ NULL) :
    (a = ptr ∨ lookup pool.live a = none) ∧
      ∃ fill, pool'.live = (a, resized old size fill) :: remove pool.live ptr := by
  obtain ⟨hp, hl⟩ := lookup_of_block? hold
  unfold realloc at h
  rw [if_neg hp, hl] at h
  simp only at h
  split at h
  · exact absurd (Prod.mk.inj (Option.some.inj h)).1.symm ha
  · exact absurd (Prod.mk.inj (Option.some.inj h)).1.symm ha
  · rename_i addr fill rest _
    split at h
    · rename_i hc
      obtain ⟨h1, h2⟩ := Prod.mk.inj (Option.some.inj h)
      subst h1
      subst h2
      exact ⟨hc.2, fill, rfl⟩
    · exact absurd (Prod.mk.inj (Option.some.inj h)).1.symm ha

/-- On a valid pointer `realloc` has defined behaviour. -/
theorem realloc_defined {pool : Pool} {ptr : Ptr} (size : Nat) (h : pool.valid ptr) :
    ∃ res, realloc pool ptr size = some res := by
  unfold realloc
  by_cases hp : ptr = NULL
  · exact ⟨_, if_pos hp⟩
  · rw [if_neg hp]
    have hs : (pool.block? ptr).isSome = true := h.resolve_left hp
    rw [block?_eq_lookup pool ptr hp] at hs
    cases hl : lookup pool.live ptr with
    | none => simp [hl] at hs
    | some old =>
      simp only
      split
      · exact ⟨_, rfl⟩
      · exact ⟨_, rfl⟩
      · split
        · exact ⟨_, rfl⟩
        · exact ⟨_, rfl⟩

/-- What `reallocate` does when the new size is not zero and `realloc`
answers: it exits on a null pointer and returns any other pointer. -/
theorem reallocate_of_realloc {pool pool' : Pool} {pointer result : Ptr} (oldSize : Nat)
    {newSize : Nat} (hpos : 0 < newSize)
    (h : realloc pool pointer newSize = some (result, pool')) :
    reallocate pool pointer oldSize newSize =
      if result = NULL then .exited 1 pool' else .returned result pool' := by
  unfold reallocate
  rw [if_neg (by omega), h]

/-- A returning call of `reallocate` with a non-zero new size hands back the
non-null pointer and the pool that `realloc` produced. -/
theorem realloc_of_reallocate_returned {pool pool' : Pool} {pointer result : Ptr}
    {oldSize newSize : Nat} (hpos : 0 < newSize)
    (h : reallocate pool pointer oldSize newSize = .returned result pool') :
    realloc pool pointer newSize = some (result, pool') ∧ result ≠ NULL := by
  unfold reallocate at h
  rw [if_neg (by omega)] at h
  cases hr : realloc pool pointer newSize with
  | none => simp [hr] at h
  | some res =>
    obtain ⟨r, p⟩ := res
    simp only [hr] at h
    by_cases hn : r = NULL
    · simp [hn] at h
    · rw [if_neg hn] at h
      cases h
      exact ⟨rfl, hn⟩

/-- The block at the head of the live list is the one its address names. -/
theorem block?_of_live_cons {pool : Pool} {a : Ptr} {c : List Byte}
    {rest : List (Ptr × List Byte)} (hl : pool.live = (a, c) :: rest) (ha : a ≠ NULL) :
    pool.block? a = some c := by
  rw [block?_eq_lookup pool a ha, hl]
  simp [lookup]

/-- When `realloc` has defined behaviour on a non-null pointer, the pointer
names a live block. -/
theorem realloc_some_live {pool : Pool} {ptr : Ptr} {size : Nat} {res : Ptr × Pool}
    (h : realloc pool ptr size = some res) (hp : ptr ≠ NULL) :
    ∃ old, pool.block? ptr = some old := by
  unfold realloc at h
  rw [if_neg hp] at h
  rw [block?_eq_lookup pool ptr hp]
  cases hl : lookup pool.live ptr with
  | none => simp [hl] at h
  | some old => exact ⟨old, rfl⟩

/-- After a write of `c` over a live block of the same size, the block holds `c`. -/
theorem lookup_store_self (blocks : List (Ptr × List Byte)) (p : Ptr) (c c1 : List Byte)
    (h : lookup blocks p = some c1) (hlen : c1.length = c.length) :
    lookup (blocks.map (fun b => (b.1, if b.1 = p ∧ b.2.length = c.length then c else b.2))) p
      = some c := by
  induction blocks with
  | nil => simp [lookup] at h
  | cons b rest ih =>
    obtain ⟨a, d⟩ := b
    by_cases hap : a = p
    · subst hap
      simp only [lookup, if_true, Option.some.injEq] at h
      subst h
      simp [lookup, hlen]
    · simp only [lookup, if_neg hap] at h
      simp only [List.map_cons, lookup, if_neg hap]
      exact ih h

/-- After a write of `c` over the live block at `p`, a block of the same size,
the pool holds `c` at `p`. -/
theorem block?_store_self {pool : Pool} {p : Ptr} {c c1 : List Byte}
    (h : pool.block? p = some c1) (hlen : c1.length = c.length) :
    (pool.store p c).block? p = some c := by
  obtain ⟨hp, hl⟩ := lookup_of_block? h
  rw [block?_eq_lookup _ p hp]
  exact lookup_store_self pool.live p c c1 hl hlen

/-! The claims. -/

/-- C1: for every pool state, every pointer that is null or names a live block,
and every `oldSize`, the call `reallocate(pointer, oldSize, 0)` returns the null
pointer to its caller (so it does not terminate the process).  The pool is
arbitrary, so this covers pools that refuse every allocation request. -/
theorem reallocate_zero_returns_null (pool : Pool) (pointer : Ptr) (oldSize : Nat)
    (hvalid : pool.valid pointer) :
    ∃ pool', reallocate pool pointer oldSize 0 = .returned NULL pool' := by
  unfold reallocate free
  by_cases hp : pointer = NULL
  · exact ⟨pool, by simp [hp]⟩
  · have hs : (pool.block? pointer).isSome = true := hvalid.resolve_left hp
    rw [block?_eq_lookup pool pointer hp] at hs
    cases hl : lookup pool.live pointer with
    | none => simp [hl] at hs
    | some old => exact ⟨{ pool with live := remove pool.live pointer }, by simp [hp]⟩

/-- Witness of C1: releasing the live 2-byte block at address 4 of a pool whose
allocator refuses every request. -/
theorem reallocate_zero_returns_null_witness :
    Pool.valid ⟨[(4, [1, 2])], []⟩ 4 ∧
      ∃ pool', reallocate ⟨[(4, [1, 2])], []⟩ 4 2 0 = .returned NULL pool' :=
  ⟨by decide, reallocate_zero_returns_null ⟨[(4, [1, 2])], []⟩ 4 2 (by decide)⟩

/-- C2: `reallocate(pointer, oldSize, newSize)` terminates the process exactly
when `newSize > 0` and `realloc(pointer, newSize)` gives back the null pointer;
when it terminates, the exit status is 1, the pool is the one `realloc` left,
and nothing is returned to the caller. -/
theorem reallocate_exits_iff_realloc_refuses (pool : Pool) (pointer : Ptr)
    (oldSize newSize : Nat) :
    ((∃ status pool', reallocate pool pointer oldSize newSize = .exited status pool') ↔
        (0 < newSize ∧ ∃ pool', realloc pool pointer newSize = some (NULL, pool'))) ∧
      (∀ status pool', reallocate pool pointer oldSize newSize = .exited status pool' →
        status = 1 ∧ realloc pool pointer newSize = some (NULL, pool') ∧
          ¬ ∃ result pool2, reallocate pool pointer oldSize newSize = .returned result pool2) := by
  have key : ∀ status pool', reallocate pool pointer oldSize newSize = .exited status pool' →
      0 < newSize ∧ status = 1 ∧ realloc pool pointer newSize = some (NULL, pool') := by
    intro status pool' h
    unfold reallocate at h
    by_cases hz : newSize = 0
    · rw [if_pos hz] at h
      cases hf : free pool pointer <;> simp [hf] at h
    · rw [if_neg hz] at h
      cases hr : realloc pool pointer newSize with
      | none => simp [hr] at h
      | some res =>
        obtain ⟨r, p⟩ := res
        simp only [hr] at h
        by_cases hn : r = NULL
        · rw [if_pos hn] at h
          cases h
          exact ⟨by omega, rfl, by rw [hn]⟩
        · simp [hn] at h
  refine ⟨⟨?_, ?_⟩, ?_⟩
  · rintro ⟨status, pool', h⟩
    obtain ⟨hpos, _, hr⟩ := key status pool' h
    exact ⟨hpos, pool', hr⟩
  · rintro ⟨hpos, pool', hr⟩
    exact ⟨1, pool', by rw [reallocate_of_realloc oldSize hpos hr]; simp⟩
  · intro status pool' h
    obtain ⟨_, hs, hr⟩ := key status pool' h
    refine ⟨hs, hr, ?_⟩
    rintro ⟨result, pool2, h'⟩
    rw [h] at h'
    cases h'

/-- C3: for a live block `b` of `oldSize` bytes with content `C`, and a
`newSize` that is positive and at least `oldSize`, a returning call
`reallocate(b, oldSize, newSize)` hands back a live block whose first `oldSize`
bytes are `C`; when `newSize = oldSize` the whole content of the block is `C`. -/
theorem reallocate_grow_preserves_content (pool pool' : Pool) (b result : Ptr)
    (oldSize newSize : Nat) (C : List Byte)
    (hlive : pool.block? b = some C) (hsize : C.length = oldSize)
    (hge : oldSize ≤ newSize) (hpos : 0 < newSize)
    (hret : reallocate pool b oldSize newSize = .returned result pool') :
    ∃ C', pool'.block? result = some C' ∧ C'.take oldSize = C ∧
      (newSize = oldSize → C' = C) := by
  obtain ⟨hr, hn⟩ := realloc_of_reallocate_returned hpos hret
  obtain ⟨_, fill, hl⟩ := realloc_live_grant hlive hr hn
  refine ⟨resized C newSize fill, block?_of_live_cons hl hn, ?_, ?_⟩
  · rw [take_resized C newSize fill oldSize hge (by omega), ← hsize, List.take_length]
  · intro heq
    have h1 := take_resized C newSize fill oldSize hge (by omega)
    rw [← hsize, List.take_length] at h1
    have h2 := length_resized C newSize fill
    calc resized C newSize fill
        = (resized C newSize fill).take C.length := (List.take_of_length_le (by omega)).symm
      _ = C := h1

/-- Witness of C3: the 2-byte block `[1, 2]` at address 4 is grown to 4 bytes;
the allocator moves it to address 9. -/
theorem reallocate_grow_preserves_content_witness :
    reallocate ⟨[(4, [1, 2])], [.grant 9 [7, 7, 7]]⟩ 4 2 4
        = .returned 9 ⟨[(9, [1, 2, 7, 7])], []⟩ ∧
      ∃ C', Pool.block? ⟨[(9, [1, 2, 7, 7])], []⟩ 9 = some C' ∧ C'.take 2 = [1, 2] ∧
        (4 = 2 → C' = [1, 2]) :=
  ⟨by decide,
   reallocate_grow_preserves_content ⟨[(4, [1, 2])], [.grant 9 [7, 7, 7]]⟩
     ⟨[(9, [1, 2, 7, 7])], []⟩ 4 9 2 4 [1, 2] (by decide) (by decide) (by decide) (by decide)
     (by decide)⟩

/-- C4: for a live block `b` of `oldSize` bytes and `0 < newSize < oldSize`, a
returning call `reallocate(b, oldSize, newSize)` hands back a live block whose
first `newSize` bytes are the first `newSize` bytes `b` had. -/
theorem reallocate_shrink_keeps_leading_bytes (pool pool' : Pool) (b result : Ptr)
    (oldSize newSize : Nat) (C : List Byte)
    (hlive : pool.block? b = some C) (hsize : C.length = oldSize)
    (hpos : 0 < newSize) (hlt : newSize < oldSize)
    (hret : reallocate pool b oldSize newSize = .returned result pool') :
    ∃ C', pool'.block? result = some C' ∧ C'.take newSize = C.take newSize := by
  obtain ⟨hr, hn⟩ := realloc_of_reallocate_returned hpos hret
  obtain ⟨_, fill, hl⟩ := realloc_live_grant hlive hr hn
  exact ⟨resized C newSize fill, block?_of_live_cons hl hn,
    take_resized C newSize fill newSize (le_refl _) (by omega)⟩

/-- Witness of C4: the 3-byte block `[1, 2, 3]` at address 4 is shrunk in place
to 2 bytes. -/
theorem reallocate_shrink_keeps_leading_bytes_witness :
    reallocate ⟨[(4, [1, 2, 3])], [.grant 4 []]⟩ 4 3 2 = .returned 4 ⟨[(4, [1, 2])], []⟩ ∧
      ∃ C', Pool.block? ⟨[(4, [1, 2])], []⟩ 4 = some C' ∧
        C'.take 2 = List.take 2 ([1, 2, 3] : List Byte) :=
  ⟨by decide,
   reallocate_shrink_keeps_leading_bytes ⟨[(4, [1, 2, 3])], [.grant 4 []]⟩ ⟨[(4, [1, 2])], []⟩
     4 4 3 2 [1, 2, 3] (by decide) (by decide) (by decide) (by decide) (by decide)⟩

/-- C5: for `n > 0` and a pool that satisfies the request,
`reallocate(NULL, 0, n)` returns an address that is not null, that differs from
the address of every block that was live before the call, and that names a
live block of exactly `n` bytes in the resulting pool. -/
theorem reallocate_null_allocates_fresh (pool : Pool) (n : Nat) (hpos : 0 < n)
    (hsat : pool.satisfies NULL n) :
    ∃ a pool', reallocate pool NULL 0 n = .returned a pool' ∧ a ≠ NULL ∧
      (∀ q c, pool.block? q = some c → a ≠ q) ∧
      ∃ c, pool'.block? a = some c ∧ c.length = n := by
  obtain ⟨⟨a, pool'⟩, hr, hn⟩ := hsat
  simp only at hn
  obtain ⟨hfresh, fill, hl⟩ := realloc_null_ptr_grant hr hn
  refine ⟨a, pool', ?_, hn, ?_, resized [] n fill, block?_of_live_cons hl hn,
    length_resized [] n fill⟩
  · rw [reallocate_of_realloc 0 hpos hr, if_neg hn]
  · intro q c hq haq
    subst haq
    rw [(lookup_of_block? hq).2] at hfresh
    cases hfresh

/-- Witness of C5: a 3-byte allocation in a pool that already holds a block at
address 4; the allocator hands out address 6. -/
theorem reallocate_null_allocates_fresh_witness :
    Pool.satisfies ⟨[(4, [1, 2])], [.grant 6 [5]]⟩ NULL 3 ∧
      ∃ a pool', reallocate ⟨[(4, [1, 2])], [.grant 6 [5]]⟩ NULL 0 3 = .returned a pool' ∧
        a ≠ NULL ∧ (∀ q c, Pool.block? ⟨[(4, [1, 2])], [.grant 6 [5]]⟩ q = some c → a ≠ q) ∧
        ∃ c, pool'.block? a = some c ∧ c.length = 3 :=
  ⟨⟨(6, ⟨[(6, [5, 0, 0]), (4, [1, 2])], []⟩), by decide, by decide⟩,
   reallocate_null_allocates_fresh ⟨[(4, [1, 2])], [.grant 6 [5]]⟩ 3 (by decide)
     ⟨(6, ⟨[(6, [5, 0, 0]), (4, [1, 2])], []⟩), by decide, by decide⟩⟩

/-- C6: for `n > 0` and a pool that satisfies the allocation, allocating with
`reallocate(NULL, 0, n)` gives a non-null address `a` that names a live block of
`n` bytes; releasing it with `reallocate(a, n, 0)` returns the null pointer,
after which that intermediate block is no longer live and the live blocks are
again exactly those from before the first call. -/
theorem reallocate_alloc_free_roundtrip (pool : Pool) (n : Nat) (hpos : 0 < n)
    (hsat : pool.satisfies NULL n) :
    ∃ a pool1 pool2, reallocate pool NULL 0 n = .returned a pool1 ∧
      a ≠ NULL ∧ (∃ c, pool1.block? a = some c ∧ c.length = n) ∧
      reallocate pool1 a n 0 = .returned NULL pool2 ∧
      pool2.block? a = none ∧ pool2.live = pool.live := by
  obtain ⟨⟨a, pool1⟩, hr, hn⟩ := hsat
  simp only at hn
  obtain ⟨hfresh, fill, hl⟩ := realloc_null_ptr_grant hr hn
  have hrem : remove pool1.live a = pool.live := by
    rw [hl]
    unfold remove
    rw [List.filter_cons_of_neg (by simp)]
    exact remove_of_lookup_none pool.live a hfresh
  have hb : pool1.block? a = some (resized [] n fill) := block?_of_live_cons hl hn
  refine ⟨a, pool1, { pool1 with live := remove pool1.live a }, ?_, hn,
    ⟨_, hb, length_resized [] n fill⟩, ?_, ?_, hrem⟩
  · rw [reallocate_of_realloc 0 hpos hr, if_neg hn]
  · unfold reallocate free
    rw [if_pos rfl, if_neg hn, (lookup_of_block? hb).2]
  · rw [block?_eq_lookup _ a hn]
    exact lookup_remove_self pool1.live a

/-- Witness of C6: allocate 3 bytes and release them again, next to a block
that stays live at address 4. -/
theorem reallocate_alloc_free_roundtrip_witness :
    Pool.satisfies ⟨[(4, [1, 2])], [.grant 6 [5]]⟩ NULL 3 ∧
      ∃ a pool1 pool2, reallocate ⟨[(4, [1, 2])], [.grant 6 [5]]⟩ NULL 0 3 = .returned a pool1 ∧
        a ≠ NULL ∧ (∃ c, pool1.block? a = some c ∧ c.length = 3) ∧
        reallocate pool1 a 3 0 = .returned NULL pool2 ∧
        pool2.block? a = none ∧ pool2.live = [(4, [1, 2])] :=
  ⟨⟨(6, ⟨[(6, [5, 0, 0]), (4, [1, 2])], []⟩), by decide, by decide⟩,
   reallocate_alloc_free_roundtrip ⟨[(4, [1, 2])], [.grant 6 [5]]⟩ 3 (by decide)
     ⟨(6, ⟨[(6, [5, 0, 0]), (4, [1, 2])], []⟩), by decide, by decide⟩⟩

/-- C7: in a pool that satisfies both requests, `b1 = reallocate(NULL, 0, 8)`
returns a live block of 8 bytes; after the caller has written any 8 bytes `c`
into it, `b2 = reallocate(b1, 8, 16)` returns a live block of 16 bytes whose
first 8 bytes are `c`, the content `b1` had right before that call; and
`reallocate(b2, 16, 0)` returns the null pointer.  All three calls return, so
the process is not terminated at any step. -/
theorem reallocate_allocate_grow_free (pool : Pool) (c : List Byte) (hc : c.length = 8)
    (h1 : pool.satisfies NULL 8)
    (h2 : ∀ b1 p1, realloc pool NULL 8 = some (b1, p1) → (p1.store b1 c).satisfies b1 16) :
    ∃ b1 p1 b2 p2 p3,
      reallocate pool NULL 0 8 = .returned b1 p1 ∧
      (∃ c1, p1.block? b1 = some c1 ∧ c1.length = 8) ∧
      (p1.store b1 c).block? b1 = some c ∧
      reallocate (p1.store b1 c) b1 8 16 = .returned b2 p2 ∧
      (∃ c2, p2.block? b2 = some c2 ∧ c2.length = 16 ∧ c2.take 8 = c) ∧
      reallocate p2 b2 16 0 = .returned NULL p3 := by
  obtain ⟨⟨b1, p1⟩, hr1, hn1⟩ := h1
  simp only at hn1
  obtain ⟨⟨b2, p2⟩, hr2, hn2⟩ := h2 b1 p1 hr1
  simp only at hn2
  obtain ⟨_, fill1, hl1⟩ := realloc_null_ptr_grant hr1 hn1
  have hb1 : p1.block? b1 = some (resized [] 8 fill1) := block?_of_live_cons hl1 hn1
  have hlen1 : (resized [] 8 fill1).length = 8 := length_resized [] 8 fill1
  have hst : (p1.store b1 c).block? b1 = some c := block?_store_self hb1 (by omega)
  obtain ⟨_, fill2, hl2⟩ := realloc_live_grant hst hr2 hn2
  have hb2 : p2.block? b2 = some (resized c 16 fill2) := block?_of_live_cons hl2 hn2
  refine ⟨b1, p1, b2, p2, { p2 with live := remove p2.live b2 }, ?_, ⟨_, hb1, hlen1⟩, hst, ?_,
    ⟨_, hb2, length_resized c 16 fill2, ?_⟩, ?_⟩
  · rw [reallocate_of_realloc 0 (by decide) hr1, if_neg hn1]
  · rw [reallocate_of_realloc 8 (by decide) hr2, if_neg hn2]
  · rw [take_resized c 16 fill2 8 (by decide) (by omega), ← hc, List.take_length]
  · unfold reallocate free
    rw [if_pos rfl, if_neg hn2, (lookup_of_block? hb2).2]

/-- Witness of C7: the allocator hands out address 6, the caller fills the 8
bytes with `1, …, 8`, and the block is then moved to address 9 on growth. -/
theorem reallocate_allocate_grow_free_witness :
    Pool.satisfies ⟨[], [.grant 6 [], .grant 9 []]⟩ NULL 8 ∧
      ∃ b1 p1 b2 p2 p3,
        reallocate ⟨[], [.grant 6 [], .grant 9 []]⟩ NULL 0 8 = .returned b1 p1 ∧
        (∃ c1, p1.block? b1 = some c1 ∧ c1.length = 8) ∧
        (p1.store b1 [1, 2, 3, 4, 5, 6, 7, 8]).block? b1 = some [1, 2, 3, 4, 5, 6, 7, 8] ∧
        reallocate (p1.store b1 [1, 2, 3, 4, 5, 6, 7, 8]) b1 8 16 = .returned b2 p2 ∧
        (∃ c2, p2.block? b2 = some c2 ∧ c2.length = 16 ∧
          c2.take 8 = [1, 2, 3, 4, 5, 6, 7, 8]) ∧
        reallocate p2 b2 16 0 = .returned NULL p3 :=
  ⟨⟨(6, ⟨[(6, [0, 0, 0, 0, 0, 0, 0, 0])], [.grant 9 []]⟩), by decide, by decide⟩,
   reallocate_allocate_grow_free ⟨[], [.grant 6 [], .grant 9 []]⟩ [1, 2, 3, 4, 5, 6, 7, 8]
     (by decide)
     ⟨(6, ⟨[(6, [0, 0, 0, 0, 0, 0, 0, 0])], [.grant 9 []]⟩), by decide, by decide⟩
     (fun b1 p1 h => by
       have hv : realloc ⟨[], [.grant 6 [], .grant 9 []]⟩ NULL 8
           = some (6, ⟨[(6, [0, 0, 0, 0, 0, 0, 0, 0])], [.grant 9 []]⟩) := by decide
       rw [hv] at h
       cases h
       exact ⟨(9, ⟨[(9, [1, 2, 3, 4, 5, 6, 7, 8, 0, 0, 0, 0, 0, 0, 0, 0])], []⟩),
         by decide, by decide⟩)⟩

/-- C8: in a pool that refuses every allocation request, for every pointer that
is null or names a live block, every `oldSize` and every `newSize > 0`, the call
`reallocate(pointer, oldSize, newSize)` terminates the process with status 1,
which is not zero, and at that point the live blocks, with their sizes and
contents and the original block among them, are those from before the call. -/
theorem reallocate_exhausted_exits_unchanged (pool : Pool) (pointer : Ptr)
    (oldSize newSize : Nat) (hrefuse : pool.refusesAll) (hvalid : pool.valid pointer)
    (hpos : 0 < newSize) :
    ∃ pool', reallocate pool pointer oldSize newSize = .exited 1 pool' ∧ 1 ≠ 0 ∧
      pool'.live = pool.live ∧ ∀ q, pool'.block? q = pool.block? q := by
  obtain ⟨⟨r, pool'⟩, hr⟩ := realloc_defined newSize hvalid
  have hnull : r = NULL := hrefuse pointer newSize (r, pool') hr
  subst hnull
  have hl := realloc_null_live hr
  refine ⟨pool', ?_, by decide, hl, ?_⟩
  · rw [reallocate_of_realloc oldSize hpos hr, if_pos rfl]
  · intro q
    unfold Pool.block?
    rw [hl]

/-- A pool whose allocator has no answer left refuses every request. -/
theorem refusesAll_of_no_answers (live : List (Ptr × List Byte)) :
    Pool.refusesAll ⟨live, []⟩ := by
  intro ptr size res h
  unfold realloc at h
  by_cases hp : ptr = NULL
  · rw [if_pos hp] at h
    cases h
    rfl
  · rw [if_neg hp] at h
    cases hl : lookup live ptr with
    | none => simp [hl] at h
    | some old =>
      simp only [hl] at h
      cases h
      rfl

/-- Witness of C8: growing the live block at address 4 in a pool that refuses
every request. -/
theorem reallocate_exhausted_exits_unchanged_witness :
    Pool.refusesAll ⟨[(4, [1, 2])], []⟩ ∧ Pool.valid ⟨[(4, [1, 2])], []⟩ 4 ∧
      ∃ pool', reallocate ⟨[(4, [1, 2])], []⟩ 4 2 5 = .exited 1 pool' ∧ 1 ≠ 0 ∧
        pool'.live = [(4, [1, 2])] ∧
        ∀ q, pool'.block? q = Pool.block? ⟨[(4, [1, 2])], []⟩ q :=
  ⟨refusesAll_of_no_answers _, by decide,
   reallocate_exhausted_exits_unchanged ⟨[(4, [1, 2])], []⟩ 4 2 5
     (refusesAll_of_no_answers _) (by decide) (by decide)⟩

/-- C9: a call `reallocate(pointer, oldSize, newSize)` with `newSize > 0` that
returns to its caller never returns the null pointer: the result names a live
block of the resulting pool whose size is at least `newSize`, so that every
offset below `newSize` holds a byte, and the input address names no live block
any more unless it is the returned address. -/
theorem reallocate_returned_block_live (pool pool' : Pool) (pointer result : Ptr)
    (oldSize newSize : Nat) (hpos : 0 < newSize)
    (hret : reallocate pool pointer oldSize newSize = .returned result pool') :
    result ≠ NULL ∧
      (∃ c, pool'.block? result = some c ∧ newSize ≤ c.length ∧
        ∀ i, i < newSize → (c.get? i).isSome = true) ∧
      (pointer ≠ result → pool'.block? pointer = none) := by
  obtain ⟨hr, hn⟩ := realloc_of_reallocate_returned hpos hret
  have hbytes : ∀ (c : List Byte), c.length = newSize →
      newSize ≤ c.length ∧ ∀ i, i < newSize → (c.get? i).isSome = true := by
    intro c hlen
    refine ⟨by omega, fun i hi => ?_⟩
    rw [List.get?_eq_get (by omega)]
    rfl
  by_cases hp : pointer = NULL
  · subst hp
    obtain ⟨_, fill, hl⟩ := realloc_null_ptr_grant hr hn
    obtain ⟨h1, h2⟩ := hbytes _ (length_resized [] newSize fill)
    exact ⟨hn, ⟨_, block?_of_live_cons hl hn, h1, h2⟩, fun _ => by simp [Pool.block?]⟩
  · obtain ⟨old, hold⟩ := realloc_some_live hr hp
    obtain ⟨_, fill, hl⟩ := realloc_live_grant hold hr hn
    obtain ⟨h1, h2⟩ := hbytes _ (length_resized old newSize fill)
    refine ⟨hn, ⟨_, block?_of_live_cons hl hn, h1, h2⟩, fun hne => ?_⟩
    rw [block?_eq_lookup _ pointer hp, hl]
    simp only [lookup, if_neg (Ne.symm hne)]
    exact lookup_remove_self pool.live pointer

/-- Witness of C9: growing the block at address 4 to 4 bytes moves it to
address 9; address 4 is not live afterwards. -/
theorem reallocate_returned_block_live_witness :
    reallocate ⟨[(4, [1, 2])], [.grant 9 [7, 7, 7]]⟩ 4 2 4
        = .returned 9 ⟨[(9, [1, 2, 7, 7])], []⟩ ∧
      (9 ≠ NULL ∧
        (∃ c, Pool.block? ⟨[(9, [1, 2, 7, 7])], []⟩ 9 = some c ∧ 4 ≤ c.length ∧
          ∀ i, i < 4 → (c.get? i).isSome = true) ∧
        ((4 : Ptr) ≠ 9 → Pool.block? ⟨[(9, [1, 2, 7, 7])], []⟩ 4 = none)) :=
  ⟨by decide,
   reallocate_returned_block_live ⟨[(4, [1, 2])], [.grant 9 [7, 7, 7]]⟩
     ⟨[(9, [1, 2, 7, 7])], []⟩ 4 9 2 4 (by decide) (by decide)⟩

/-- C10: the outcome of `reallocate` does not depend on `oldSize`: with any two
values for it, the calls end the same way (same returned address or same
termination) with the same pool.  How much content a returning call with a
non-zero new size preserves is set by the size the block has in the pool: the
prefix of that length, cut at `newSize`, is kept whatever `oldSize` says. -/
theorem reallocate_independent_of_oldSize (pool : Pool) (pointer : Ptr)
    (oldSize1 oldSize2 newSize : Nat) :
    reallocate pool pointer oldSize1 newSize = reallocate pool pointer oldSize2 newSize ∧
      ∀ (C : List Byte) (result : Ptr) (pool' : Pool), pool.block? pointer = some C →
        0 < newSize → reallocate pool pointer oldSize1 newSize = .returned result pool' →
        ∃ C', pool'.block? result = some C' ∧
          C'.take (min C.length newSize) = C.take (min C.length newSize) := by
  refine ⟨rfl, ?_⟩
  intro C result pool' hlive hpos hret
  obtain ⟨hr, hn⟩ := realloc_of_reallocate_returned hpos hret
  obtain ⟨_, fill, hl⟩ := realloc_live_grant hlive hr hn
  exact ⟨resized C newSize fill, block?_of_live_cons hl hn,
    take_resized C newSize fill _ (Nat.min_le_right _ _) (Nat.min_le_left _ _)⟩

/-- Witness of C10: the block at address 4 holds 3 bytes; the caller passes 1 or
100 as the old size; both calls give the same outcome, and all 3 bytes are
kept. -/
theorem reallocate_independent_of_oldSize_witness :
    reallocate ⟨[(4, [1, 2, 3])], [.grant 9 []]⟩ 4 1 5
        = .returned 9 ⟨[(9, [1, 2, 3, 0, 0])], []⟩ ∧
      reallocate ⟨[(4, [1, 2, 3])], [.grant 9 []]⟩ 4 1 5
        = reallocate ⟨[(4, [1, 2, 3])], [.grant 9 []]⟩ 4 100 5 :=
  ⟨by decide,
   (reallocate_independent_of_oldSize ⟨[(4, [1, 2, 3])], [.grant 9 []]⟩ 4 1 100 5).1⟩

end Clox
